import Mathlib

/-!
Shallow embedding of src/src/depth_sorter.ts (gaussian-splatting-web).

WGSL f32 scalars (positions, projection matrix entries, depths) are modelled as
exact rationals: the claims under study are about dataflow — which value is
written to which slot and how slots are ordered — not about rounding.
Device buffers are modelled by their contents: a buffer of f32 values is a
function from slot index to a rational, a buffer of u32 values a function from
slot index to a natural number.  WebGPU zero-initialises freshly created
buffers, so unwritten slots of a fresh buffer hold 0.
-/

namespace DepthSort

/-- A WGSL vec3 of f32 values, modelled exactly. -/
structure Vec3 where
  x : ℚ
  y : ℚ
  z : ℚ
deriving DecidableEq

/-- A WGSL vec4 of f32 values. -/
structure Vec4 where
  x : ℚ
  y : ℚ
  z : ℚ
  w : ℚ
deriving DecidableEq

/-- A WGSL mat4x4 of f32 values, stored as its four columns (WGSL matrices are
column-major, so the shader expression projMatrix * v combines the columns). -/
structure Mat4 where
  c0 : Vec4
  c1 : Vec4
  c2 : Vec4
  c3 : Vec4
deriving DecidableEq

/-- WGSL matrix-vector product: the linear combination of the matrix columns by
the vector components. -/
def Mat4.mulVec (m : Mat4) (v : Vec4) : Vec4 :=
  ⟨m.c0.x * v.x + m.c1.x * v.y + m.c2.x * v.z + m.c3.x * v.w,
   m.c0.y * v.x + m.c1.y * v.y + m.c2.y * v.z + m.c3.y * v.w,
   m.c0.z * v.x + m.c1.z * v.y + m.c2.z * v.z + m.c3.z * v.w,
   m.c0.w * v.x + m.c1.w * v.y + m.c2.w * v.z + m.c3.w * v.w⟩

/-- Embeds the body of computeDepthShader at a real slot: the z component of
projMatrix * vec4(pos, 1.0)  (clip-space z, pre-perspective-divide).
Lines 27-29 of depth_sorter.ts. -/
def projZ (m : Mat4) (p : Vec3) : ℚ :=
  (m.mulVec ⟨p.x, p.y, p.z, 1⟩).z

/-- Embeds nextPowerOfTwo, line 6-8 of depth_sorter.ts:
Math.pow(2, Math.ceil(Math.log2(x))).  For x at least 1 this is two to the
ceiling of the base-two logarithm, i.e. 2 ^ Nat.clog 2 x, computed exactly by
JS doubles for every realistic count.  For x = 0, JS evaluates
Math.log2(0) = -Infinity, Math.ceil(-Infinity) = -Infinity, and
Math.pow(2, -Infinity) = 0, so the function returns 0. -/
def nextPowerOfTwo (x : Nat) : Nat :=
  if x = 0 then 0 else 2 ^ Nat.clog 2 x

/-- Embeds the expression Math.ceil(nElements / numThreads), line 144 of
depth_sorter.ts, as exact natural ceiling division. -/
def itemsPerThread (n t : Nat) : Nat :=
  (n + t - 1) / t

/-- Value written by one iteration of the computeDepthShader loop, lines 24-30:
slots past numQuadsUnpadded get the sentinel 1000000 (the comment in the
source calls it padding with +inf), real slots get the projected z. -/
def depthAt (nUnpadded : Nat) (m : Mat4) (pos : Nat → Vec3) (i : Nat) : ℚ :=
  if nUnpadded ≤ i then 1000000 else projZ m (pos i)

/-- Embeds the per-thread loop of computeDepthShader, line 23: the thread
writes depths at the consecutive indices i0, i0+1, ... for fuel iterations
(the loop runs from global_id.x * itemsPerThread up to, excluding,
(global_id.x + 1) * itemsPerThread). -/
def depthLoop (nUnpadded : Nat) (m : Mat4) (pos : Nat → Vec3) :
    Nat → Nat → (Nat → ℚ) → Nat → ℚ
  | 0, _, d => d
  | fuel + 1, i, d =>
      depthLoop nUnpadded m pos fuel (i + 1)
        (fun j => if j = i then depthAt nUnpadded m pos i else d j)

/-- Embeds one whole dispatch of computeDepthShader over nThreads workgroups of
size 1 (dispatchWorkgroups(this.numThreads), line 234): thread t runs the loop
over its chunk starting at t * ipt.  Threads write disjoint index ranges, so
the sequential fold over threads models the parallel dispatch faithfully. -/
def depthStage (ipt nUnpadded nThreads : Nat) (m : Mat4) (pos : Nat → Vec3)
    (d0 : Nat → ℚ) : Nat → ℚ :=
  (List.range nThreads).foldl (fun d t => depthLoop nUnpadded m pos ipt (t * ipt) d) d0

/-- Embeds the inner vertex loop of copyToIndexBufferShader, lines 50-52:
indexBuffer at i * 6 + vertex is set to index * 6 + vertex for vertex 0..5. -/
def writeSix (idx i : Nat) (b : Nat → Nat) : Nat → Nat :=
  (List.range 6).foldl (fun b2 v => fun j => if j = i * 6 + v then idx * 6 + v else b2 j) b

/-- Embeds the per-thread loop of copyToIndexBufferShader, lines 44-53: the
thread walks its chunk, breaking as soon as the item index reaches
numQuadsUnpadded, and otherwise expands permutation entry i into six vertex
indices. -/
def copyLoop (nUnpadded : Nat) (perm : Nat → Nat) :
    Nat → Nat → (Nat → Nat) → Nat → Nat
  | 0, _, b => b
  | fuel + 1, i, b =>
      if nUnpadded ≤ i then b
      else copyLoop nUnpadded perm fuel (i + 1) (writeSix (perm i) i b)

/-- Embeds one whole dispatch of copyToIndexBufferShader over nThreads
workgroups of size 1 (line 248). -/
def copyStage (ipt nUnpadded nThreads : Nat) (perm : Nat → Nat)
    (b0 : Nat → Nat) : Nat → Nat :=
  (List.range nThreads).foldl (fun b t => copyLoop nUnpadded perm ipt (t * ipt) b) b0

/-- Modelled from the spec: the Parallel Sort Engine (class BitonicSorter,
file bitonic.ts, which is not under src; depth_sorter.ts only constructs it,
line 180, and calls this.sorter.argsort(this.depthBuffer), line 241).  Spec
section 4.2 gives its contract: given the padded array of P depth keys, return
a permutation array of the P original indices such that reading the keys at
those indices yields ascending order; every compare-exchange moves a
(key, index) pair as an atomic unit, and any consistent deterministic
tie-break is acceptable (sections 4.2 and 9 leave the tie-break open and
suggest breaking ties by original index).  We model this contract by an
executable comparison sort of the indices 0..P-1, ordered by their keys with
ties broken by original index (insertion sort is stable). -/
def argsort (keys : List ℚ) : List Nat :=
  (List.range keys.length).insertionSort (fun i j => keys.getD i 0 ≤ keys.getD j 0)

/-- Contents-plus-identity model of a DepthSorter instance, lines 60-215 of
depth_sorter.ts.  The count fields mirror nElements, nPadded and numThreads;
each device buffer is modelled by its contents together with a numeric
identity (the id stands for the GPUBuffer object identity, letting us state
that sort never allocates a new buffer and returns the same buffer object
every call).  The perm field models the contents of this.sorter.indicesBuffer,
the sort engine's output buffer, which is bound once at construction as the
input of the expansion stage. -/
structure DepthSorterState where
  nElements : Nat
  nPadded : Nat
  numThreads : Nat
  positionsBufId : Nat
  projMatrixBufId : Nat
  depthBufId : Nat
  permBufId : Nat
  indexBufId : Nat
  positions : Nat → Vec3
  projMatrix : Mat4
  depths : Nat → ℚ
  perm : List Nat
  indexBuf : Nat → Nat

/-- The list of device-buffer identities owned by the instance. -/
def DepthSorterState.bufferIds (s : DepthSorterState) : List Nat :=
  [s.positionsBufId, s.projMatrixBufId, s.depthBufId, s.permBufId, s.indexBufId]

/-- The all-zero matrix: contents of the projection-matrix uniform buffer
right after construction (WebGPU buffers are zero-initialised). -/
def zeroMat4 : Mat4 :=
  ⟨⟨0, 0, 0, 0⟩, ⟨0, 0, 0, 0⟩, ⟨0, 0, 0, 0⟩, ⟨0, 0, 0, 0⟩⟩

/-- Models the DepthSorter constructor, lines 80-215: it stores the element
count, the padded length nextPowerOfTwo(nElements), the fixed thread count
1024 and the positions, creates the five device buffers once (their contents
zero-initialised by WebGPU), and builds the pipelines with
itemsPerThread = Math.ceil(nElements / numThreads) baked in. -/
def mkDepthSorter (pos : Nat → Vec3) (n : Nat) : DepthSorterState :=
  { nElements := n
    nPadded := nextPowerOfTwo n
    numThreads := 1024
    positionsBufId := 0
    projMatrixBufId := 1
    depthBufId := 2
    permBufId := 3
    indexBufId := 4
    positions := pos
    projMatrix := zeroMat4
    depths := fun _ => 0
    perm := List.replicate (nextPowerOfTwo n) 0
    indexBuf := fun _ => 0 }

/-- Models DepthSorter.sort, lines 217-254: write the projection matrix into
its buffer; dispatch computeDepthShader over numThreads threads; run the sort
engine's argsort on the depth buffer (the depth buffer is read via a copy —
its usage flags include COPY_SRC — so argsort does not mutate it); dispatch
copyToIndexBufferShader, which reads the sort engine's indices buffer
(pre-bound at construction) and overwrites the index buffer; finally return
this.indexBuffer, i.e. the identity of the index buffer created at
construction.  There is no failure path: the function is total and always
returns that same buffer. -/
def sortStep (s : DepthSorterState) (m : Mat4) : DepthSorterState × Nat :=
  let ipt := itemsPerThread s.nElements s.numThreads
  let d1 := depthStage ipt s.nElements s.numThreads m s.positions s.depths
  let p1 := argsort ((List.range s.nPadded).map d1)
  let b1 := copyStage ipt s.nElements s.numThreads (fun i => p1.getD i 0) s.indexBuf
  ({ s with projMatrix := m, depths := d1, perm := p1, indexBuf := b1 }, s.indexBufId)

/-- The all-zero position vector. -/
def zeroVec3 : Vec3 := ⟨0, 0, 0⟩

/-- Positions that are all at the origin. -/
def zeroPositions : Nat → Vec3 := fun _ => zeroVec3

/-- A projection matrix whose third column has z entry 2000000: it projects
the position with z = 1 to a clip-space depth of 2000000, which exceeds the
padding sentinel 1000000. -/
def farMat4 : Mat4 :=
  ⟨⟨0, 0, 0, 0⟩, ⟨0, 0, 0, 0⟩, ⟨0, 0, 2000000, 0⟩, ⟨0, 0, 0, 0⟩⟩

/-- Positions where primitive 0 sits at z = 1 and the others at the origin. -/
def spikePositions : Nat → Vec3 := fun k => if k = 0 then ⟨0, 0, 1⟩ else zeroVec3

/-! Closed forms for the two shader stages.  Each per-thread loop writes a
contiguous index range and distinct threads write disjoint ranges, so the
whole dispatch has a simple pointwise description. -/

theorem depthLoop_apply (nU : Nat) (m : Mat4) (pos : Nat → Vec3) :
    ∀ (fuel i0 : Nat) (d : Nat → ℚ) (j : Nat),
      depthLoop nU m pos fuel i0 d j =
        if i0 ≤ j ∧ j < i0 + fuel then depthAt nU m pos j else d j := by
  intro fuel
  induction fuel with
  | zero =>
      intro i0 d j
      rw [depthLoop, if_neg (by omega : ¬(i0 ≤ j ∧ j < i0 + 0))]
  | succ f ih =>
      intro i0 d j
      rw [depthLoop, ih]
      by_cases hj : j = i0
      · subst hj
        rw [if_neg (by omega : ¬(j + 1 ≤ j ∧ j < j + 1 + f))]
        rw [if_pos rfl, if_pos (by omega : j ≤ j ∧ j < j + (f + 1))]
      · by_cases hin : i0 + 1 ≤ j ∧ j < i0 + 1 + f
        · rw [if_pos hin, if_pos (by omega : i0 ≤ j ∧ j < i0 + (f + 1))]
        · rw [if_neg hin]
          rw [if_neg hj, if_neg (by omega : ¬(i0 ≤ j ∧ j < i0 + (f + 1)))]

theorem depthStage_apply (ipt nU : Nat) (m : Mat4) (pos : Nat → Vec3) :
    ∀ (nT : Nat) (d0 : Nat → ℚ) (j : Nat),
      depthStage ipt nU nT m pos d0 j =
        if j < nT * ipt then depthAt nU m pos j else d0 j := by
  intro nT
  induction nT with
  | zero =>
      intro d0 j
      rw [depthStage]
      simp only [List.range_zero, List.foldl_nil]
      rw [if_neg (by omega : ¬(j < 0 * ipt))]
  | succ t ih =>
      intro d0 j
      rw [depthStage, List.range_succ, List.foldl_append, List.foldl_cons, List.foldl_nil]
      rw [show (List.range t).foldl
            (fun d t2 => depthLoop nU m pos ipt (t2 * ipt) d) d0 =
          depthStage ipt nU t m pos d0 from rfl]
      rw [depthLoop_apply, ih, Nat.succ_mul]
      by_cases h1 : t * ipt ≤ j ∧ j < t * ipt + ipt
      · rw [if_pos h1, if_pos (by omega : j < t * ipt + ipt)]
      · rw [if_neg h1]
        by_cases h2 : j < t * ipt
        · rw [if_pos h2, if_pos (by omega : j < t * ipt + ipt)]
        · rw [if_neg h2, if_neg (by omega : ¬(j < t * ipt + ipt))]

theorem writeSix_apply (idx i : Nat) (b : Nat → Nat) (j : Nat) :
    writeSix idx i b j =
      if i * 6 ≤ j ∧ j < i * 6 + 6 then idx * 6 + (j - i * 6) else b j := by
  rw [writeSix, show List.range 6 = [0, 1, 2, 3, 4, 5] from rfl]
  simp only [List.foldl_cons, List.foldl_nil]
  split_ifs <;> omega

theorem copyLoop_apply (nU : Nat) (perm : Nat → Nat) :
    ∀ (fuel i0 : Nat) (b : Nat → Nat) (j : Nat),
      copyLoop nU perm fuel i0 b j =
        if 6 * i0 ≤ j ∧ j < 6 * min (i0 + fuel) nU then 6 * perm (j / 6) + j % 6
        else b j := by
  intro fuel
  induction fuel with
  | zero =>
      intro i0 b j
      rw [copyLoop, if_neg (by omega : ¬(6 * i0 ≤ j ∧ j < 6 * min (i0 + 0) nU))]
  | succ f ih =>
      intro i0 b j
      rw [copyLoop]
      by_cases hstop : nU ≤ i0
      · rw [if_pos hstop,
            if_neg (by omega : ¬(6 * i0 ≤ j ∧ j < 6 * min (i0 + (f + 1)) nU))]
      · rw [if_neg hstop, ih, writeSix_apply]
        by_cases hrec : 6 * (i0 + 1) ≤ j ∧ j < 6 * min (i0 + 1 + f) nU
        · rw [if_pos hrec,
              if_pos (by omega : 6 * i0 ≤ j ∧ j < 6 * min (i0 + (f + 1)) nU)]
        · rw [if_neg hrec]
          by_cases hcur : i0 * 6 ≤ j ∧ j < i0 * 6 + 6
          · rw [if_pos hcur]
            have hdiv : j / 6 = i0 := by omega
            rw [hdiv,
                if_pos (by omega : 6 * i0 ≤ j ∧ j < 6 * min (i0 + (f + 1)) nU)]
            omega
          · rw [if_neg hcur,
                if_neg (by omega : ¬(6 * i0 ≤ j ∧ j < 6 * min (i0 + (f + 1)) nU))]

theorem copyStage_apply (ipt nU : Nat) (perm : Nat → Nat) :
    ∀ (nT : Nat) (b0 : Nat → Nat) (j : Nat),
      copyStage ipt nU nT perm b0 j =
        if j < 6 * min (nT * ipt) nU then 6 * perm (j / 6) + j % 6 else b0 j := by
  intro nT
  induction nT with
  | zero =>
      intro b0 j
      rw [copyStage]
      simp only [List.range_zero, List.foldl_nil]
      rw [if_neg (by omega : ¬(j < 6 * min (0 * ipt) nU))]
  | succ t ih =>
      intro b0 j
      rw [copyStage, List.range_succ, List.foldl_append, List.foldl_cons, List.foldl_nil]
      rw [show (List.range t).foldl
            (fun b t2 => copyLoop nU perm ipt (t2 * ipt) b) b0 =
          copyStage ipt nU t perm b0 from rfl]
      rw [copyLoop_apply, ih, show (t + 1) * ipt = t * ipt + ipt from by ring]
      by_cases h1 : 6 * (t * ipt) ≤ j ∧ j < 6 * min (t * ipt + ipt) nU
      · rw [if_pos h1, if_pos (by omega : j < 6 * min (t * ipt + ipt) nU)]
      · rw [if_neg h1]
        by_cases h2 : j < 6 * min (t * ipt) nU
        · rw [if_pos h2, if_pos (by omega : j < 6 * min (t * ipt + ipt) nU)]
        · rw [if_neg h2, if_neg (by omega : ¬(j < 6 * min (t * ipt + ipt) nU))]

/-! Arithmetic facts about nextPowerOfTwo and the thread partitioning. -/

theorem nextPowerOfTwo_eq_pow (k x : Nat) (h1 : 2 ^ k < x) (h2 : x ≤ 2 ^ (k + 1)) :
    nextPowerOfTwo x = 2 ^ (k + 1) := by
  have hx : x ≠ 0 := by
    have : 1 ≤ 2 ^ k := Nat.one_le_two_pow
    omega
  rw [nextPowerOfTwo, if_neg hx]
  have ha : Nat.clog 2 x ≤ k + 1 := (Nat.le_pow_iff_clog_le (by norm_num)).mp h2
  have hb : k < Nat.clog 2 x := (Nat.pow_lt_iff_lt_clog (by norm_num)).mp h1
  congr 1
  omega

theorem le_nextPowerOfTwo (x : Nat) (hx : 1 ≤ x) : x ≤ nextPowerOfTwo x := by
  rw [nextPowerOfTwo, if_neg (by omega : ¬ x = 0)]
  exact Nat.le_pow_clog (by norm_num) x

theorem nextPowerOfTwo_one : nextPowerOfTwo 1 = 1 := by
  have h := Nat.clog_pow 2 0 (by norm_num)
  rw [nextPowerOfTwo, if_neg (by norm_num)]
  rw [pow_zero] at h
  rw [h, pow_zero]

theorem coverage_ge (n : Nat) : n ≤ 1024 * itemsPerThread n 1024 := by
  rw [itemsPerThread]
  omega

/-! Properties of the modelled sort engine. -/

theorem argsort_perm (keys : List ℚ) :
    (argsort keys).Perm (List.range keys.length) :=
  List.perm_insertionSort _ _

theorem argsort_sorted (keys : List ℚ) :
    List.Sorted (fun i j => keys.getD i 0 ≤ keys.getD j 0) (argsort keys) := by
  haveI h1 : IsTotal Nat (fun i j => keys.getD i 0 ≤ keys.getD j 0) :=
    ⟨fun a b => le_total _ _⟩
  haveI h2 : IsTrans Nat (fun i j => keys.getD i 0 ≤ keys.getD j 0) :=
    ⟨fun a b c hab hbc => le_trans hab hbc⟩
  exact List.sorted_insertionSort _ _

theorem argsort_length (keys : List ℚ) :
    (argsort keys).length = keys.length := by
  rw [(argsort_perm keys).length_eq, List.length_range]

theorem argsort_mem_lt (keys : List ℚ) (r : Nat) (hr : r ∈ argsort keys) :
    r < keys.length :=
  List.mem_range.mp ((argsort_perm keys).mem_iff.mp hr)

theorem argsort_sorted_getD (keys : List ℚ) (i : Nat)
    (h : i + 1 < (argsort keys).length) :
    keys.getD ((argsort keys).getD i 0) 0 ≤
      keys.getD ((argsort keys).getD (i + 1) 0) 0 := by
  have hs : List.Pairwise (fun a b => keys.getD a 0 ≤ keys.getD b 0) (argsort keys) :=
    argsort_sorted keys
  have hij := List.pairwise_iff_get.mp hs ⟨i, by omega⟩ ⟨i + 1, h⟩ (Fin.mk_lt_mk.mpr (by omega))
  rwa [List.get_eq_getElem, List.get_eq_getElem,
    ← List.getD_eq_getElem (argsort keys) 0 (show i < (argsort keys).length by omega),
    ← List.getD_eq_getElem (argsort keys) 0 h] at hij

/-- Sentinel containment for the modelled sort engine: if the first n keys are
strictly below the sentinel value 1000000 and every later key equals the
sentinel, then each of the first n ranks of the argsort output is a real
index, i.e. an index below n. -/
theorem argsort_reals_first (keys : List ℚ) (n : Nat)
    (hn : n ≤ keys.length)
    (hreal : ∀ i, i < n → keys.getD i 0 < 1000000)
    (hpad : ∀ i, n ≤ i → i < keys.length → keys.getD i 0 = 1000000) :
    ∀ k, k < n → (argsort keys).getD k 0 < n := by
  intro k hk
  by_contra hge
  push_neg at hge
  have hlen : (argsort keys).length = keys.length := argsort_length keys
  have hkL : k < (argsort keys).length := by omega
  have hnd : (argsort keys).Nodup :=
    (argsort_perm keys).nodup_iff.mpr (List.nodup_range _)
  have hgetk : (argsort keys).getD k 0 = (argsort keys).get ⟨k, hkL⟩ := by
    rw [List.getD_eq_getElem _ 0 hkL, List.get_eq_getElem]
  have heL : (argsort keys).getD k 0 ∈ argsort keys := by
    rw [hgetk]; exact List.get_mem _ _ _
  have heKeys : (argsort keys).getD k 0 < keys.length :=
    argsort_mem_lt keys _ heL
  -- the first n ranks cannot contain all n real indices: rank k holds a
  -- sentinel slot, and the prefix of length n has no duplicates
  have htake_len : ((argsort keys).take n).length = n := by
    rw [List.length_take]; omega
  have htake_nd : ((argsort keys).take n).Nodup :=
    (List.take_sublist n (argsort keys)).nodup hnd
  have hetake : (argsort keys).getD k 0 ∈ (argsort keys).take n := by
    have htk : ((argsort keys).take n).get ⟨k, by omega⟩ =
        (argsort keys).get ⟨k, hkL⟩ := by
      rw [List.get_eq_getElem, List.get_eq_getElem]
      exact List.getElem_take _
    rw [hgetk, ← htk]
    exact List.get_mem _ _ _
  obtain ⟨r, hrn, hrtake⟩ : ∃ r, r < n ∧ r ∉ (argsort keys).take n := by
    by_contra hall
    push_neg at hall
    have hsub : insert ((argsort keys).getD k 0) (Finset.range n) ⊆
        ((argsort keys).take n).toFinset := by
      intro a ha
      rcases Finset.mem_insert.mp ha with ha | ha
      · subst ha; exact List.mem_toFinset.mpr hetake
      · exact List.mem_toFinset.mpr (hall a (Finset.mem_range.mp ha))
    have hcard := Finset.card_le_card hsub
    rw [Finset.card_insert_of_not_mem (by
          intro hmem
          exact absurd (Finset.mem_range.mp hmem) (by omega)),
        Finset.card_range, List.toFinset_card_of_nodup htake_nd, htake_len] at hcard
    omega
  have hrL : r ∈ argsort keys :=
    (argsort_perm keys).mem_iff.mpr (List.mem_range.mpr (by omega))
  obtain ⟨⟨j, hjL⟩, hjr⟩ := List.mem_iff_get.mp hrL
  have hjn : n ≤ j := by
    by_contra hjlt
    push_neg at hjlt
    apply hrtake
    have htj : ((argsort keys).take n).get ⟨j, by omega⟩ =
        (argsort keys).get ⟨j, hjL⟩ := by
      rw [List.get_eq_getElem, List.get_eq_getElem]
      exact List.getElem_take _
    rw [← hjr, ← htj]
    exact List.get_mem _ _ _
  have hsorted : List.Pairwise (fun a b => keys.getD a 0 ≤ keys.getD b 0) (argsort keys) :=
    argsort_sorted keys
  have hle := List.pairwise_iff_get.mp hsorted ⟨k, hkL⟩ ⟨j, hjL⟩ (Fin.mk_lt_mk.mpr (by omega))
  rw [hjr] at hle
  rw [← hgetk] at hle
  have hks : keys.getD ((argsort keys).getD k 0) 0 = 1000000 :=
    hpad _ hge heKeys
  have hrs : keys.getD r 0 < 1000000 := hreal r hrn
  rw [hks] at hle
  exact absurd (lt_of_le_of_lt hle hrs) (lt_irrefl _)

/-! Unfolding lemmas for sortStep: each is definitional. -/

theorem sortStep_nElements (s : DepthSorterState) (m : Mat4) :
    (sortStep s m).1.nElements = s.nElements := rfl

theorem sortStep_nPadded (s : DepthSorterState) (m : Mat4) :
    (sortStep s m).1.nPadded = s.nPadded := rfl

theorem sortStep_numThreads (s : DepthSorterState) (m : Mat4) :
    (sortStep s m).1.numThreads = s.numThreads := rfl

theorem sortStep_positions (s : DepthSorterState) (m : Mat4) :
    (sortStep s m).1.positions = s.positions := rfl

theorem sortStep_bufferIds (s : DepthSorterState) (m : Mat4) :
    (sortStep s m).1.bufferIds = s.bufferIds := rfl

theorem sortStep_returns (s : DepthSorterState) (m : Mat4) :
    (sortStep s m).2 = s.indexBufId := rfl

theorem sortStep_depths (s : DepthSorterState) (m : Mat4) :
    (sortStep s m).1.depths =
      depthStage (itemsPerThread s.nElements s.numThreads) s.nElements
        s.numThreads m s.positions s.depths := rfl

theorem sortStep_perm (s : DepthSorterState) (m : Mat4) :
    (sortStep s m).1.perm =
      argsort ((List.range s.nPadded).map
        (depthStage (itemsPerThread s.nElements s.numThreads) s.nElements
          s.numThreads m s.positions s.depths)) := rfl

theorem sortStep_indexBuf (s : DepthSorterState) (m : Mat4) :
    (sortStep s m).1.indexBuf =
      copyStage (itemsPerThread s.nElements s.numThreads) s.nElements s.numThreads
        (fun i => (argsort ((List.range s.nPadded).map
          (depthStage (itemsPerThread s.nElements s.numThreads) s.nElements
            s.numThreads m s.positions s.depths))).getD i 0)
        s.indexBuf := rfl

/-! Idempotence of the two stages: rewriting the same slots with the same
values a second time changes nothing. -/

theorem depthStage_idem (ipt nU nT : Nat) (m : Mat4) (pos : Nat → Vec3)
    (d0 : Nat → ℚ) :
    depthStage ipt nU nT m pos (depthStage ipt nU nT m pos d0) =
      depthStage ipt nU nT m pos d0 := by
  funext j
  rw [depthStage_apply, depthStage_apply]
  by_cases h : j < nT * ipt
  · rw [if_pos h, if_pos h]
  · rw [if_neg h, if_neg h]

theorem copyStage_idem (ipt nU nT : Nat) (perm : Nat → Nat) (b0 : Nat → Nat) :
    copyStage ipt nU nT perm (copyStage ipt nU nT perm b0) =
      copyStage ipt nU nT perm b0 := by
  funext j
  rw [copyStage_apply, copyStage_apply]
  by_cases h : j < 6 * min (nT * ipt) nU
  · rw [if_pos h, if_pos h]
  · rw [if_neg h, if_neg h]

/-- Claim C1: the claim states that after the Projection Stage every slot i
below nElements holds the clip-space z of position i and every slot from
nElements up to nPadded holds the sentinel 1000000, for every nElements at
least 1 and every projection matrix.  The code violates the sentinel half:
the dispatch covers only numThreads * itemsPerThread =
1024 * ceil(nElements / 1024) slots, which for nElements = 2049 is 3072 while
nPadded = 4096, so slots 3072..4095 are never written.  This theorem
evaluates the embedded stage at that failing input: slot 3072 lies inside the
padding range yet keeps its previous (zero-initialised) contents 0 instead of
the sentinel. -/
theorem c1_padding_gap_at_2049 :
    itemsPerThread 2049 1024 = 3 ∧
    2049 ≤ 3072 ∧ 3072 < nextPowerOfTwo 2049 ∧
    depthStage (itemsPerThread 2049 1024) 2049 1024 zeroMat4 zeroPositions
      (fun _ => 0) 3072 = 0 ∧
    (0 : ℚ) ≠ 1000000 := by
  have hipt : itemsPerThread 2049 1024 = 3 := by decide
  have hnpt : nextPowerOfTwo 2049 = 4096 := by
    have h := nextPowerOfTwo_eq_pow 11 2049 (by norm_num) (by norm_num)
    simpa using h
  refine ⟨hipt, by omega, by omega, ?_, by norm_num⟩
  rw [depthStage_apply, if_neg (by omega : ¬(3072 < 1024 * itemsPerThread 2049 1024))]

/-- Claim C2: the claim states that the Projection Stage writes exactly the
nPadded slots of the depth array: no execution unit writes a slot at an index
at or above nPadded, and every slot below nPadded is written.  The code
violates both halves.  This theorem evaluates the embedded stage at
nElements = 1, where nPadded = 1 yet the dispatch writes slots 1..1023: slot
1 (an index at or above nPadded) is changed from its initial 0 to the
sentinel.  (The under-writing half fails at nElements = 2049, see the C1
theorem.) -/
theorem c2_write_beyond_padded_length :
    nextPowerOfTwo 1 = 1 ∧
    depthStage (itemsPerThread 1 1024) 1 1024 zeroMat4 zeroPositions
      (fun _ => 0) 1 = 1000000 ∧
    ((1000000 : ℚ) ≠ 0) := by
  have hipt : itemsPerThread 1 1024 = 1 := by decide
  refine ⟨nextPowerOfTwo_one, ?_, by norm_num⟩
  rw [depthStage_apply, if_pos (by omega : 1 < 1024 * itemsPerThread 1 1024)]
  unfold depthAt
  rw [if_pos (by omega : 1 ≤ 1)]

/-- Claim C3: for every power-of-two length P and every depth array of P
values, the sort engine produces a permutation that is a bijection on the
indices below P and reads the depths in non-decreasing order.  Proved against
the spec-modelled sort engine (bitonic.ts is not under src): its output is a
permutation of the index range, every output entry is an index below P, and
consecutive ranks have non-decreasing keys. -/
theorem c3_sort_engine_correct (keys : List ℚ) (P : Nat)
    (hP : keys.length = P) (hpow : ∃ k, P = 2 ^ k) :
    (argsort keys).Perm (List.range P) ∧
    (∀ r, r ∈ argsort keys → r < P) ∧
    (∀ i, i + 1 < (argsort keys).length →
      keys.getD ((argsort keys).getD i 0) 0 ≤
        keys.getD ((argsort keys).getD (i + 1) 0) 0) := by
  subst hP
  exact ⟨argsort_perm keys, fun r hr => argsort_mem_lt keys r hr,
    fun i hi => argsort_sorted_getD keys i hi⟩

/-- Witness for C3 at the spec's own scenario: keys 5, 1, 3 padded with one
sentinel, P = 4 = 2 ^ 2. -/
theorem c3_witness :
    ([(5 : ℚ), 1, 3, 1000000].length = 4 ∧ (∃ k, (4 : Nat) = 2 ^ k)) ∧
    ((argsort [(5 : ℚ), 1, 3, 1000000]).Perm (List.range 4) ∧
     (∀ r, r ∈ argsort [(5 : ℚ), 1, 3, 1000000] → r < 4) ∧
     (∀ i, i + 1 < (argsort [(5 : ℚ), 1, 3, 1000000]).length →
       [(5 : ℚ), 1, 3, 1000000].getD
           ((argsort [(5 : ℚ), 1, 3, 1000000]).getD i 0) 0 ≤
         [(5 : ℚ), 1, 3, 1000000].getD
           ((argsort [(5 : ℚ), 1, 3, 1000000]).getD (i + 1) 0) 0)) :=
  ⟨⟨rfl, ⟨2, rfl⟩⟩, c3_sort_engine_correct [(5 : ℚ), 1, 3, 1000000] 4 rfl ⟨2, rfl⟩⟩

/-- Claim C4: after the Index Expansion Stage, for every k below nElements
the six output entries at positions 6k .. 6k+5 equal 6 * permutation k + v
for v = 0..5, and no position at or past 6 * nElements is written.  Proved:
the dispatch covers at least nElements items, the per-thread loops break at
nElements, and the writes land exactly in the first 6 * nElements slots. -/
theorem c4_expansion_correct (N : Nat) (perm : Nat → Nat) (b0 : Nat → Nat)
    (k v : Nat) (hk : k < N) (hv : v < 6) :
    copyStage (itemsPerThread N 1024) N 1024 perm b0 (6 * k + v) = 6 * perm k + v ∧
    (∀ j, 6 * N ≤ j → copyStage (itemsPerThread N 1024) N 1024 perm b0 j = b0 j) := by
  have hcov := coverage_ge N
  constructor
  · rw [copyStage_apply,
      if_pos (by omega : 6 * k + v < 6 * min (1024 * itemsPerThread N 1024) N)]
    have hd : (6 * k + v) / 6 = k := by omega
    have hm : (6 * k + v) % 6 = v := by omega
    rw [hd, hm]
  · intro j hj
    rw [copyStage_apply,
      if_neg (by omega : ¬(j < 6 * min (1024 * itemsPerThread N 1024) N))]

/-- Witness for C4 at N = 2, the identity permutation, k = 1, v = 3. -/
theorem c4_witness :
    ((1 : Nat) < 2 ∧ (3 : Nat) < 6) ∧
    (copyStage (itemsPerThread 2 1024) 2 1024 (fun i => i) (fun _ => 0)
        (6 * 1 + 3) = 6 * (fun i : Nat => i) 1 + 3 ∧
     (∀ j, 6 * 2 ≤ j →
       copyStage (itemsPerThread 2 1024) 2 1024 (fun i => i) (fun _ => 0) j =
         (fun _ : Nat => (0 : Nat)) j)) :=
  ⟨⟨by omega, by omega⟩,
   c4_expansion_correct 2 (fun i => i) (fun _ => 0) 1 3 (by omega) (by omega)⟩

/-- Counterexample to claim C5 as stated: with nElements = 3 and a projection
matrix that sends position 0 to clip-space depth 2000000 — beyond the padding
sentinel 1000000 — the sentinel slot 3 outranks the real slot 0, so the
expanded index buffer holds the entry 18 = 6 * 3 at position 12, and 18 does
not lie below 6 * nElements = 18.  The claim promised every entry below 6N
for every projection matrix. -/
theorem c5_counterexample :
    (mkDepthSorter spikePositions 3).nElements = 3 ∧
    12 < 6 * 3 ∧
    (sortStep (mkDepthSorter spikePositions 3) farMat4).1.indexBuf 12 = 18 ∧
    ¬(18 < 6 * 3) := by
  have hipt : itemsPerThread 3 1024 = 1 := by decide
  have h4 : nextPowerOfTwo 3 = 4 := by
    have h := nextPowerOfTwo_eq_pow 1 3 (by norm_num) (by norm_num)
    simpa using h
  refine ⟨rfl, by omega, ?_, by omega⟩
  rw [sortStep_indexBuf]
  simp only [mkDepthSorter]
  rw [h4]
  have hd : ∀ i : Nat, i < 4 →
      depthStage (itemsPerThread 3 1024) 3 1024 farMat4 spikePositions
        (fun _ => 0) i = depthAt 3 farMat4 spikePositions i := by
    intro i hi
    rw [depthStage_apply, if_pos (by omega)]
  have hkeys : (List.range 4).map
      (depthStage (itemsPerThread 3 1024) 3 1024 farMat4 spikePositions
        (fun _ => 0)) = [2000000, 0, 0, 1000000] := by
    rw [show List.range 4 = [0, 1, 2, 3] from rfl]
    simp only [List.map_cons, List.map_nil]
    rw [hd 0 (by omega), hd 1 (by omega), hd 2 (by omega), hd 3 (by omega)]
    have e0 : depthAt 3 farMat4 spikePositions 0 = 2000000 := by
      norm_num [depthAt, projZ, Mat4.mulVec, farMat4, spikePositions, zeroVec3]
    have e1 : depthAt 3 farMat4 spikePositions 1 = 0 := by
      norm_num [depthAt, projZ, Mat4.mulVec, farMat4, spikePositions, zeroVec3]
    have e2 : depthAt 3 farMat4 spikePositions 2 = 0 := by
      norm_num [depthAt, projZ, Mat4.mulVec, farMat4, spikePositions, zeroVec3]
    have e3 : depthAt 3 farMat4 spikePositions 3 = 1000000 := by
      norm_num [depthAt, projZ, Mat4.mulVec, farMat4, spikePositions, zeroVec3]
    rw [e0, e1, e2, e3]
  rw [hkeys]
  have hsort : argsort [2000000, 0, 0, 1000000] = [1, 2, 3, 0] := by decide
  rw [hsort, copyStage_apply,
    if_pos (by omega : 12 < 6 * min (1024 * itemsPerThread 3 1024) 3)]
  decide

/-- Claim C5 (amended): every entry of the expanded index buffer lies below
6 * nElements, and every sentinel-padded slot sorts to a rank at or past
nElements, provided (a) every real projected depth is strictly below the
sentinel 1000000 (the spec assumes the sentinel is larger than any attainable
real depth; the counterexample shows the claim fails without this) and
(b) the projection-stage coverage 1024 * itemsPerThread reaches nPadded, so
the padding slots actually hold the sentinel (this fails for nElements = 2049,
see the C1 theorem). -/
theorem c5_entries_in_range (s : DepthSorterState) (m : Mat4) (N : Nat)
    (hN : 1 ≤ N)
    (hnE : s.nElements = N)
    (hnP : s.nPadded = nextPowerOfTwo N)
    (hnT : s.numThreads = 1024)
    (hz : ∀ i, i < N → projZ m (s.positions i) < 1000000)
    (hcov : nextPowerOfTwo N ≤ 1024 * itemsPerThread N 1024) :
    (∀ k, k < N → (sortStep s m).1.perm.getD k 0 < N) ∧
    (∀ j, j < 6 * N → (sortStep s m).1.indexBuf j < 6 * N) := by
  have hNP : N ≤ nextPowerOfTwo N := le_nextPowerOfTwo N hN
  have hkeylen : ((List.range (nextPowerOfTwo N)).map
      (depthStage (itemsPerThread N 1024) N 1024 m s.positions s.depths)).length =
      nextPowerOfTwo N := by
    rw [List.length_map, List.length_range]
  have hkey : ∀ i, i < nextPowerOfTwo N →
      ((List.range (nextPowerOfTwo N)).map
        (depthStage (itemsPerThread N 1024) N 1024 m s.positions s.depths)).getD i 0 =
      depthAt N m s.positions i := by
    intro i hi
    rw [List.getD_eq_getElem _ _ (by omega), List.getElem_map, List.getElem_range,
      depthStage_apply, if_pos (by omega)]
  have hperm : ∀ k, k < N →
      (argsort ((List.range (nextPowerOfTwo N)).map
        (depthStage (itemsPerThread N 1024) N 1024 m s.positions s.depths))).getD k 0 < N := by
    apply argsort_reals_first
    · omega
    · intro i hi
      rw [hkey i (by omega)]
      unfold depthAt
      rw [if_neg (by omega)]
      exact hz i hi
    · intro i hi1 hi2
      rw [hkey i (by omega)]
      unfold depthAt
      rw [if_pos hi1]
  constructor
  · intro k hk
    rw [sortStep_perm, hnE, hnP, hnT]
    exact hperm k hk
  · intro j hj
    rw [sortStep_indexBuf, hnE, hnP, hnT, copyStage_apply]
    have hcov2 := coverage_ge N
    rw [if_pos (by omega : j < 6 * min (1024 * itemsPerThread N 1024) N)]
    have hp := hperm (j / 6) (by omega)
    omega

/-- Witness for the amended C5 at nElements = 3, all positions at the origin
and the zero matrix: every projected depth is 0, below the sentinel, and the
coverage condition holds since itemsPerThread 3 1024 = 1. -/
theorem c5_witness :
    ((1 : Nat) ≤ 3 ∧
     (mkDepthSorter zeroPositions 3).nElements = 3 ∧
     (∀ i, i < 3 →
       projZ zeroMat4 ((mkDepthSorter zeroPositions 3).positions i) < 1000000) ∧
     nextPowerOfTwo 3 ≤ 1024 * itemsPerThread 3 1024) ∧
    ((∀ k, k < 3 →
       (sortStep (mkDepthSorter zeroPositions 3) zeroMat4).1.perm.getD k 0 < 3) ∧
     (∀ j, j < 6 * 3 →
       (sortStep (mkDepthSorter zeroPositions 3) zeroMat4).1.indexBuf j < 6 * 3)) := by
  have hipt : itemsPerThread 3 1024 = 1 := by decide
  have h4 : nextPowerOfTwo 3 = 4 := by
    have h := nextPowerOfTwo_eq_pow 1 3 (by norm_num) (by norm_num)
    simpa using h
  have hcov : nextPowerOfTwo 3 ≤ 1024 * itemsPerThread 3 1024 := by omega
  have hz : ∀ i, i < 3 →
      projZ zeroMat4 ((mkDepthSorter zeroPositions 3).positions i) < 1000000 := by
    intro i hi
    show projZ zeroMat4 zeroVec3 < 1000000
    norm_num [projZ, Mat4.mulVec, zeroMat4, zeroVec3]
  exact ⟨⟨by omega, rfl, hz, hcov⟩,
    c5_entries_in_range (mkDepthSorter zeroPositions 3) zeroMat4 3 (by omega)
      rfl rfl rfl hz hcov⟩

/-- Claim C6: for every nElements at least 1, nextPowerOfTwo is a power of
two, at least nElements, the smallest such power of two, and fixes exact
powers of two. -/
theorem c6_nextPowerOfTwo_minimal (N : Nat) (hN : 1 ≤ N) :
    (∃ k, nextPowerOfTwo N = 2 ^ k) ∧
    N ≤ nextPowerOfTwo N ∧
    (∀ m, N ≤ 2 ^ m → nextPowerOfTwo N ≤ 2 ^ m) ∧
    (∀ k, N = 2 ^ k → nextPowerOfTwo N = N) := by
  have hne : ¬ N = 0 := by omega
  refine ⟨⟨Nat.clog 2 N, by rw [nextPowerOfTwo, if_neg hne]⟩,
    le_nextPowerOfTwo N hN, ?_, ?_⟩
  · intro m hm
    rw [nextPowerOfTwo, if_neg hne]
    exact Nat.pow_le_pow_right (by norm_num)
      ((Nat.le_pow_iff_clog_le (by norm_num)).mp hm)
  · intro k hk
    subst hk
    rw [nextPowerOfTwo, if_neg hne, Nat.clog_pow 2 k (by norm_num)]

/-- Witness for C6 at N = 3. -/
theorem c6_witness :
    ((1 : Nat) ≤ 3) ∧
    ((∃ k, nextPowerOfTwo 3 = 2 ^ k) ∧
     3 ≤ nextPowerOfTwo 3 ∧
     (∀ m, 3 ≤ 2 ^ m → nextPowerOfTwo 3 ≤ 2 ^ m) ∧
     (∀ k, 3 = 2 ^ k → nextPowerOfTwo 3 = 3)) :=
  ⟨by omega, c6_nextPowerOfTwo_minimal 3 (by omega)⟩

/-- Counterexample to claim C7 as stated: the claim says the padded length
computed at construction for nElements = 0 equals 1.  In the code
nextPowerOfTwo(0) evaluates Math.pow(2, Math.ceil(Math.log2(0))) =
Math.pow(2, -Infinity) = 0, so nPadded is 0, not 1 (and 0 is not a power of
two). -/
theorem c7_counterexample :
    nextPowerOfTwo 0 = 0 ∧ nextPowerOfTwo 0 ≠ 1 := ⟨rfl, by decide⟩

/-- Claim C7 (amended): when nElements = 0 the padded length computed at
construction is 0 (not 1; the doubling convention the spec assumes is not
what Math.pow(2, -Infinity) yields), the expanded index buffer has
6 * 0 = 0 entries, and thread partitioning divides only by the constant
threadCount = 1024, so no divide-by-zero occurs and
itemsPerThread = ceil(0 / 1024) = 0. -/
theorem c7_zero_count_behaviour :
    nextPowerOfTwo 0 = 0 ∧
    (mkDepthSorter zeroPositions 0).nPadded = 0 ∧
    itemsPerThread 0 1024 = 0 ∧
    6 * (mkDepthSorter zeroPositions 0).nElements = 0 ∧
    (1024 : Nat) ≠ 0 :=
  ⟨rfl, rfl, by decide, rfl, by decide⟩

/-- Claim C8: calling sort twice on the same instance with the same
projection matrix and unchanged positions leaves the expanded index buffer
with identical contents after the second call.  Proved: the second call
recomputes exactly the same depth values on the covered slots and touches
nothing else, hence obtains the same permutation and rewrites the same index
buffer entries with the same values. -/
theorem c8_sort_deterministic (s : DepthSorterState) (m : Mat4) :
    (sortStep (sortStep s m).1 m).1.indexBuf = (sortStep s m).1.indexBuf := by
  rw [sortStep_indexBuf ((sortStep s m).1) m,
    sortStep_nElements, sortStep_nPadded, sortStep_numThreads, sortStep_positions,
    sortStep_depths, depthStage_idem, sortStep_indexBuf s m, copyStage_idem]

/-- Claim C9: the claim states that a device execution fault during a
dispatch makes the sort call fail distinguishably and that a usable buffer is
returned only when all dispatches complete.  The code has no failure path at
all: sort unconditionally returns this.indexBuffer immediately after queueing
the dispatches (queue submission is asynchronous, and the code installs no
error scope and never consults device loss), so a caller cannot distinguish a
faulted frame from a successful one.  This theorem records that the embedded
sort is total and returns the index buffer for every state and matrix,
unconditionally. -/
theorem c9_sort_never_fails (s : DepthSorterState) (m : Mat4) :
    (sortStep s m).2 = s.indexBufId :=
  sortStep_returns s m

/-- Claim C10: a sort call only overwrites the contents of the
projection-matrix, depth, permutation and index buffers: it preserves the
element counts and the thread count, leaves the positions buffer contents
untouched, keeps the identities of all five construction-time buffers
(allocating nothing new), and returns exactly the construction-time index
buffer. -/
theorem c10_sort_preserves_resources (s : DepthSorterState) (m : Mat4) :
    (sortStep s m).1.nElements = s.nElements ∧
    (sortStep s m).1.nPadded = s.nPadded ∧
    (sortStep s m).1.numThreads = s.numThreads ∧
    (sortStep s m).1.positions = s.positions ∧
    (sortStep s m).1.bufferIds = s.bufferIds ∧
    (sortStep s m).1.indexBufId = s.indexBufId ∧
    (sortStep s m).2 = s.indexBufId :=
  ⟨sortStep_nElements s m, sortStep_nPadded s m, sortStep_numThreads s m,
   sortStep_positions s m, sortStep_bufferIds s m, rfl, sortStep_returns s m⟩

end DepthSort
